import Mathlib

/-!
Shallow embedding of `src/Data_Cleaning_Scripts/Clean_Data.py`: a pandas
pipeline that resamples an ECG waveform series and a CGM glucose series
onto a fixed 1-minute grid and inner-joins them on timestamps.

Modelling conventions:
* A timestamp instant is an integer count of microseconds since the Unix
  epoch (`ℤ`), the granularity the input formats can express; pandas
  `datetime64` instants are modelled at that granularity.
* A possibly-missing float cell (pandas `NaN`) is `Option ℚ`, with `none`
  for a missing value; present values are exact rationals.
* Reading a CSV file is modelled by handing the function the parsed rows;
  a file that does not exist is `none` at the call sites that check
  `os.path.exists`.
* Writing a CSV file is modelled by returning the written table; a code
  path that returns without writing yields `none`.
-/

namespace CleanData

/-- Microseconds in one minute: the `'1T'` resampling frequency. -/
def usPerMin : ℤ := 60000000

/-- The 1-minute bin label (as a minute index) that pandas
`resample('1T')` assigns to an instant: left-closed bins, so floor
division of the instant by the bin width. -/
def minuteFloor (t : ℤ) : ℤ := Int.fdiv t usPerMin

/-- Gregorian leap-year test. -/
def isLeapYear (y : ℕ) : Bool :=
  (y % 4 == 0 && !(y % 100 == 0)) || (y % 400 == 0)

/-- Number of days in month `m` of year `y`. -/
def daysInMonth (y m : ℕ) : ℕ :=
  if m = 2 then (if isLeapYear y then 29 else 28)
  else if m = 4 ∨ m = 6 ∨ m = 9 ∨ m = 11 then 30
  else 31

/-- Days from 1970-01-01 to the civil date `y-m-d` (proleptic Gregorian,
the standard days-from-civil algorithm used by datetime libraries). -/
def daysFromCivil (y m d : ℤ) : ℤ :=
  let yAdj := if m ≤ 2 then y - 1 else y
  let era := Int.fdiv yAdj 400
  let yoe := yAdj - era * 400
  let mp := Int.fmod (m + 9) 12
  let doy := Int.fdiv (153 * mp + 2) 5 + d - 1
  let doe := yoe * 365 + Int.fdiv yoe 4 - Int.fdiv yoe 100 + doy
  era * 146097 + doe - 719468

/-- Microseconds since the Unix epoch of the broken-down civil datetime. -/
def toMicros (y mo d h mi s f : ℕ) : ℤ :=
  (daysFromCivil (y : ℤ) (mo : ℤ) (d : ℤ) * 86400
    + (h : ℤ) * 3600 + (mi : ℤ) * 60 + (s : ℤ)) * 1000000 + (f : ℤ)

/-- Largest microsecond magnitude representable by pandas `datetime64[ns]`
(int64 nanoseconds); `pd.to_datetime(..., errors='coerce')` turns
out-of-bounds datetimes into `NaT`. -/
def pandasMaxMicros : ℤ := 9223372036854775

/-- Validate a broken-down civil datetime and convert it to an instant;
`none` models a parse producing `NaT` (invalid field or out of the
`datetime64[ns]` range). -/
def mkTimestamp (y mo d h mi s f : ℕ) : Option ℤ :=
  if 1 ≤ mo ∧ mo ≤ 12 ∧ 1 ≤ d ∧ d ≤ daysInMonth y mo
      ∧ h ≤ 23 ∧ mi ≤ 59 ∧ s ≤ 59 ∧ f ≤ 999999 then
    let t := toMicros y mo d h mi s f
    if -pandasMaxMicros ≤ t ∧ t ≤ pandasMaxMicros then some t else none
  else none

/-- Split a character sequence at every occurrence of the separator
(`str.split`-style; the separators the formats use are single
characters). -/
def splitOnChar (c : Char) : List Char → List (List Char)
  | [] => [[]]
  | x :: xs =>
    match splitOnChar c xs with
    | [] => [[]]
    | g :: gs => if x = c then [] :: g :: gs else (x :: g) :: gs

/-- Read a non-empty all-digit character sequence as a decimal number;
`none` on anything else. -/
def charsToNat? (l : List Char) : Option ℕ :=
  if l.isEmpty then none
  else if l.all (fun c => c.isDigit) then
    some (l.foldl (fun acc c => acc * 10 + (c.toNat - 48)) 0)
  else none

/-- `%f`: one to six fractional-second digits, left-justified into
microseconds (Python/pandas `strptime` semantics). -/
def parseFrac (l : List Char) : Option ℕ :=
  if 1 ≤ l.length ∧ l.length ≤ 6 then
    (charsToNat? l).map (fun n => n * 10 ^ (6 - l.length))
  else none

/-- Embedding of line 26,
`pd.to_datetime(ecg_df['Time'], format='%d/%m/%Y %H:%M:%S.%f',
errors='coerce')` applied to one cell: parse under the fixed
day/month/year + fractional-seconds format, `none` (`NaT`) on any
mismatch. -/
def parseEcgTime (raw : String) : Option ℤ :=
  match splitOnChar ' ' raw.toList with
  | [datePart, timePart] =>
    match splitOnChar '/' datePart with
    | [ds, ms, ys] =>
      match splitOnChar ':' timePart with
      | [hs, mis, ss] =>
        match splitOnChar '.' ss with
        | [sec, frac] =>
          match charsToNat? ds, charsToNat? ms, charsToNat? ys,
              charsToNat? hs, charsToNat? mis, charsToNat? sec,
              parseFrac frac with
          | some d, some mo, some y, some h, some mi, some s, some f =>
            mkTimestamp y mo d h mi s f
          | _, _, _, _, _, _, _ => none
        | _ => none
      | _ => none
    | _ => none
  | _ => none

/-- Embedding of line 62,
`pd.to_datetime(cgm_df['date'] + ' ' + cgm_df['time'], errors='coerce')`
applied to one cell.  Without an explicit `format=`, pandas infers the
layout; the glucose files carry ISO `YYYY-MM-DD` dates and `HH:MM:SS`
(optionally fractional) times, and that inferred layout is what is
embedded here; `none` (`NaT`) on any mismatch. -/
def parseIsoInstant (raw : String) : Option ℤ :=
  match splitOnChar ' ' raw.toList with
  | [datePart, timePart] =>
    match splitOnChar '-' datePart with
    | [ys, ms, ds] =>
      match splitOnChar ':' timePart with
      | [hs, mis, ss] =>
        let secFrac : Option (ℕ × ℕ) :=
          match splitOnChar '.' ss with
          | [sec] => (charsToNat? sec).map (fun sv => (sv, 0))
          | [sec, frac] =>
            match charsToNat? sec, parseFrac frac with
            | some sv, some fv => some (sv, fv)
            | _, _ => none
          | _ => none
        match charsToNat? ys, charsToNat? ms, charsToNat? ds,
            charsToNat? hs, charsToNat? mis, secFrac with
        | some y, some mo, some d, some h, some mi, some (s, f) =>
          mkTimestamp y mo d h mi s f
        | _, _, _, _, _, _ => none
      | _ => none
    | _ => none
  | _ => none

/-- The scalar-source timestamp: the `date` and `time` fields joined by a
single space, then parsed. -/
def parseCgmTime (date time : String) : Option ℤ :=
  parseIsoInstant (date ++ " " ++ time)

/-- The representative value `resample('1T').mean()` gives bin `m` of the
series `s`: the arithmetic mean of the non-missing sample values whose
instants floor to minute `m`, or `NaN` (`none`) when there are none
(pandas `mean` skips `NaN` cells and an all-missing or empty bin is
`NaN`). -/
def binValue (s : List (ℤ × Option ℚ)) (m : ℤ) : Option ℚ :=
  let vs := (s.filter (fun q => minuteFloor q.1 == m)).filterMap Prod.snd
  if vs.isEmpty then none else some (vs.sum / vs.length)

/-- Embedding of `series.resample('1T').mean()` (lines 30 and 67) on a
datetime-indexed series: one row per 1-minute bin from the bin of the
smallest instant to the bin of the largest, labelled by the bin's left
edge, valued by the per-bin mean. -/
def resampleMean (s : List (ℤ × Option ℚ)) : List (ℤ × Option ℚ) :=
  match s with
  | [] => []
  | p :: rest =>
    let lo := minuteFloor ((rest.map Prod.fst).foldr min p.1)
    let hi := minuteFloor ((rest.map Prod.fst).foldr max p.1)
    (List.range (hi - lo + 1).toNat).map
      (fun (i : ℕ) => ((lo + (i : ℤ)) * usPerMin, binValue s (lo + (i : ℤ))))

/-- Position (relative index) and value of the first non-missing entry of
a column slice. -/
def findFirstSome : List (Option ℚ) → Option (ℕ × ℚ)
  | [] => none
  | some v :: _ => some (0, v)
  | none :: rest => (findFirstSome rest).map (fun p => (p.1 + 1, p.2))

/-- Position and value of the last non-missing entry of a column slice. -/
def findLastSome : List (Option ℚ) → Option (ℕ × ℚ)
  | [] => none
  | x :: rest =>
    match findLastSome rest with
    | some p => some (p.1 + 1, p.2)
    | none => x.map (fun v => (0, v))

/-- Value that `Series.interpolate(method='linear')` (default
`limit_direction='forward'`) leaves at position `i` of the equally
spaced column `l`: a present value stays; a missing value with a
preceding and a following present value becomes the straight-line
estimate between them; a missing value after the last present value is
carried forward from it; a missing value before the first present value
stays missing. -/
def interpAt (l : List (Option ℚ)) (i : ℕ) : Option ℚ :=
  match l.getD i none with
  | some v => some v
  | none =>
    match findLastSome (l.take i), findFirstSome (l.drop (i + 1)) with
    | some jp, some kp =>
      some (jp.2 + (kp.2 - jp.2) * ((i - jp.1 : ℕ) : ℚ)
        / ((i + 1 + kp.1 - jp.1 : ℕ) : ℚ))
    | some jp, none => some jp.2
    | none, _ => none

/-- Embedding of `.interpolate(method='linear')` at line 67 over a whole
column. -/
def interp (l : List (Option ℚ)) : List (Option ℚ) :=
  (List.range l.length).map (interpAt l)

/-- One data row of a raw waveform CSV: the raw timestamp text and the
waveform float cell (positionally the first and second column). -/
structure EcgRaw where
  time : String
  value : Option ℚ
  deriving DecidableEq, Repr

/-- A raw waveform CSV as `pd.read_csv` presents it: the header row's
column names and the data rows. -/
structure EcgCsv where
  header : List String
  rows : List EcgRaw
  deriving DecidableEq, Repr

/-- One data row of the raw scalar (glucose) CSV: the named columns the
script reads. -/
structure CgmRaw where
  date : String
  time : String
  type : String
  glucose : Option ℚ
  deriving DecidableEq, Repr

/-- Lines 26-27: parse each waveform row's timestamp under the fixed
format and drop (`dropna`) the rows whose parse produced `NaT`. -/
def normalizeEcg (rows : List EcgRaw) : List (ℤ × Option ℚ) :=
  rows.filterMap (fun r => (parseEcgTime r.time).map (fun t => (t, r.value)))

/-- Lines 25-32 of `process_ecg_data`, from the in-memory rows to the
resampled table: rename columns positionally, parse timestamps, drop
unparseable rows, index by time, resample to 1-minute means.  No
interpolation step appears on this path. -/
def processEcgData (rows : List EcgRaw) : List (ℤ × Option ℚ) :=
  resampleMean (normalizeEcg rows)

/-- `process_ecg_data` at file granularity: an empty input file returns
early with no output artifact (`none`); otherwise the resampled table is
written. The header of the input CSV is overwritten positionally
(`ecg_df.columns = ['Time', 'EcgWaveform']`, line 25), so only `f.rows`
is consulted. -/
def processEcgFile (f : EcgCsv) : Option (List (ℤ × Option ℚ)) :=
  if f.rows.isEmpty then none else some (processEcgData f.rows)

/-- Lines 62-63: build each scalar row's timestamp from `date` and
`time`, drop rows whose parse produced `NaT`. -/
def normalizeCgm (rows : List CgmRaw) : List (ℤ × CgmRaw) :=
  rows.filterMap (fun r => (parseCgmTime r.date r.time).map (fun t => (t, r)))

/-- Lines 62-67 of `process_cgm_data`: parse timestamps, drop unparseable
rows, keep only rows with `type == 'cgm'`, resample the glucose column
to 1-minute means, then linearly interpolate the resulting column. -/
def processCgmData (rows : List CgmRaw) : List (ℤ × Option ℚ) :=
  let cgmOnly := (normalizeCgm rows).filter (fun p => p.2.type == "cgm")
  let res := resampleMean (cgmOnly.map (fun p => (p.1, p.2.glucose)))
  (res.map Prod.fst).zip (interp (res.map Prod.snd))

/-- One row of a processed (resampled) scalar CSV as the merge stage
reads it back: an instant and a possibly-missing glucose value. -/
structure CgmRow where
  timestamp : ℤ
  glucose : Option ℚ
  deriving DecidableEq, Repr

/-- One row of a processed (resampled) waveform CSV as the merge stage
reads it back. -/
structure EcgRow where
  timestamp : ℤ
  ecg : Option ℚ
  deriving DecidableEq, Repr

/-- One row of the merged output table. -/
structure MergedRow where
  timestamp : ℤ
  glucose : Option ℚ
  ecg : Option ℚ
  deriving DecidableEq, Repr

/-- The merged output artifact: the header row and the data rows of the
written CSV. -/
structure MergedCsv where
  header : List String
  rows : List MergedRow
  deriving DecidableEq, Repr

/-- Column headers of the merged artifact (`cgm_df` columns then the
non-key `ecg` column, and the literal list at line 134). -/
def mergedHeader : List String := ["Timestamp", "Glucose", "EcgWaveform"]

/-- Round half to even at integer precision (numpy/pandas `round`). -/
def roundHalfEven (q : ℚ) : ℤ :=
  let f := ⌊q⌋
  let r := q - (f : ℚ)
  if r < 1 / 2 then f
  else if 1 / 2 < r then f + 1
  else if f % 2 = 0 then f else f + 1

/-- `round(2)`: round to two decimal places, half to even. -/
def round2 (q : ℚ) : ℚ := (roundHalfEven (q * 100) : ℚ) / 100

/-- Line 138: round the two value columns of a merged row; a missing
cell stays missing (`NaN.round()` is `NaN`). -/
def roundRow (r : MergedRow) : MergedRow :=
  ⟨r.timestamp, r.glucose.map round2, r.ecg.map round2⟩

/-- Lines 107-114: keep the waveform inputs that exist (`some`) and are
non-empty. -/
def readEcgFiles (files : List (Option (List EcgRow))) : List (List EcgRow) :=
  (files.filterMap id).filter (fun l => !l.isEmpty)

/-- Lines 120-121: concatenate the waveform tables, sort ascending by
timestamp (`sort_values`, whose default quicksort leaves the order of
tied timestamps unspecified; an insertion sort is one such ascending
sort), and drop rows still missing a value. -/
def prepEcg (ls : List (List EcgRow)) : List EcgRow :=
  (ls.flatten.insertionSort (fun a b => a.timestamp ≤ b.timestamp)).filter
    (fun e => e.ecg.isSome)

/-- Line 127, `pd.merge(cgm_df, all_ecg_df, on='Timestamp', how='inner')`:
for each left row in order, one output row per right row with an equal
timestamp, in the right rows' order (pandas preserves the left keys'
order for an inner merge). -/
def innerJoin (left : List CgmRow) (right : List EcgRow) : List MergedRow :=
  left.flatMap (fun c =>
    (right.filter (fun e => e.timestamp == c.timestamp)).map
      (fun e => ⟨c.timestamp, c.glucose, e.ecg⟩))

/-- Embedding of `merge_resampled_data` (lines 94-141) from the readable
input tables to the written artifact.  `none` for the whole result means
the function returned without writing an output file: a missing scalar
file (line 98), an empty scalar table (line 102), or no existing
non-empty waveform table (line 116).  A zero-overlap inner merge writes
the header-only artifact (line 134); otherwise the merged rows are
rounded and written. -/
def mergeResampledData (cgm : Option (List CgmRow))
    (ecgFiles : List (Option (List EcgRow))) : Option MergedCsv :=
  match cgm with
  | none => none
  | some cgmRows =>
    if cgmRows.isEmpty then none
    else
      let files := readEcgFiles ecgFiles
      if files.isEmpty then none
      else
        let merged := innerJoin cgmRows (prepEcg files)
        if merged.isEmpty then some ⟨mergedHeader, []⟩
        else some ⟨mergedHeader, merged.map roundRow⟩

/-- The 1-minute bin index of the ceiling of an instant: the least minute
boundary at or above it. -/
def minuteCeil (t : ℤ) : ℤ := -(Int.fdiv (-t) usPerMin)

/-- Modelled from the spec: the output grid claim C5 describes,
"consecutive fixed 1-minute grid points running from the floor of the
series' minimum timestamp to the ceiling of its maximum, inclusive" —
for comparison against what `resampleMean` actually produces. -/
def specClaimedGrid (s : List (ℤ × Option ℚ)) : List ℤ :=
  match s with
  | [] => []
  | p :: rest =>
    let lo := minuteFloor ((rest.map Prod.fst).foldr min p.1)
    let hi := minuteCeil ((rest.map Prod.fst).foldr max p.1)
    (List.range (hi - lo + 1).toNat).map (fun (i : ℕ) => (lo + (i : ℤ)) * usPerMin)

/-- The spec's end-to-end waveform example as raw input rows: four samples
in minute `00:00` averaging `0.55`, none in minute `00:01`, two samples in
minute `00:02` averaging `0.30`. -/
def exC1Rows : List EcgRaw :=
  [⟨"01/10/2014 00:00:00.0", some (2/5)⟩,
   ⟨"01/10/2014 00:00:15.0", some (1/2)⟩,
   ⟨"01/10/2014 00:00:30.0", some (3/5)⟩,
   ⟨"01/10/2014 00:00:45.0", some (7/10)⟩,
   ⟨"01/10/2014 00:02:00.0", some (1/4)⟩,
   ⟨"01/10/2014 00:02:30.0", some (7/20)⟩]

/-- A scalar input whose resampled series ends in a gap: a glucose reading
at `00:00:00` and a row in minute `00:01` whose glucose cell is missing,
so bin `00:01` aggregates to a missing trailing value. -/
def exC6Rows : List CgmRaw :=
  [⟨"2014-10-01", "00:00:00", "cgm", some 1⟩,
   ⟨"2014-10-01", "00:01:30", "cgm", none⟩]

lemma foldr_min_le_init (a : ℤ) (l : List ℤ) : l.foldr min a ≤ a := by
  induction l with
  | nil => simp
  | cons x xs ih => simpa using le_trans (min_le_right x (xs.foldr min a)) ih

lemma foldr_min_le_of_mem {x : ℤ} {l : List ℤ} (a : ℤ) (h : x ∈ l) :
    l.foldr min a ≤ x := by
  induction l with
  | nil => cases h
  | cons y ys ih =>
    rcases List.mem_cons.mp h with rfl | h'
    · exact min_le_left _ _
    · exact le_trans (min_le_right _ _) (ih h')

lemma foldr_min_eq_init {a : ℤ} {l : List ℤ} (h : ∀ x ∈ l, a ≤ x) :
    l.foldr min a = a := by
  induction l with
  | nil => rfl
  | cons y ys ih =>
    simp only [List.foldr_cons]
    rw [ih (fun x hx => h x (List.mem_cons_of_mem _ hx))]
    exact min_eq_right (h y (List.mem_cons_self _ _))

lemma le_foldr_max_init (a : ℤ) (l : List ℤ) : a ≤ l.foldr max a := by
  induction l with
  | nil => simp
  | cons x xs ih => simpa using le_trans ih (le_max_right x (xs.foldr max a))

lemma le_foldr_max_of_mem {x : ℤ} {l : List ℤ} (a : ℤ) (h : x ∈ l) :
    x ≤ l.foldr max a := by
  induction l with
  | nil => cases h
  | cons y ys ih =>
    rcases List.mem_cons.mp h with rfl | h'
    · exact le_max_left _ _
    · exact le_trans (ih h') (le_max_right _ _)

lemma foldr_max_eq_init {a : ℤ} {l : List ℤ} (h : ∀ x ∈ l, x ≤ a) :
    l.foldr max a = a := by
  induction l with
  | nil => rfl
  | cons y ys ih =>
    simp only [List.foldr_cons]
    rw [ih (fun x hx => h x (List.mem_cons_of_mem _ hx))]
    exact max_eq_right (h y (List.mem_cons_self _ _))

lemma fdiv_unique {a c q r : ℤ} (hc : 0 < c) (ha : a = c * q + r)
    (h0 : 0 ≤ r) (h1 : r < c) : a.fdiv c = q := by
  have hmod := Int.fdiv_add_fmod a c
  have hm0 : 0 ≤ a.fmod c := Int.fmod_nonneg' a hc
  have hm1 : a.fmod c < c := Int.fmod_lt_of_pos a hc
  have key : c * a.fdiv c - c * q = r - a.fmod c := by linarith
  have h4 : c * (a.fdiv c - q) < c * 1 := by
    have : c * (a.fdiv c - q) = c * a.fdiv c - c * q := by ring
    rw [this, key]; linarith
  have h5 : c * (q - a.fdiv c) < c * 1 := by
    have : c * (q - a.fdiv c) = c * q - c * a.fdiv c := by ring
    rw [this, ← neg_sub (c * a.fdiv c) (c * q), key]; linarith
  have h6 : a.fdiv c - q < 1 := lt_of_mul_lt_mul_left h4 hc.le
  have h7 : q - a.fdiv c < 1 := lt_of_mul_lt_mul_left h5 hc.le
  omega

lemma fdiv_mono {a b c : ℤ} (hc : 0 < c) (h : a ≤ b) :
    a.fdiv c ≤ b.fdiv c := by
  by_contra hlt
  push_neg at hlt
  have h1 : b.fdiv c + 1 ≤ a.fdiv c := hlt
  have ha' := Int.fdiv_add_fmod a c
  have hb' := Int.fdiv_add_fmod b c
  have hma : 0 ≤ a.fmod c := Int.fmod_nonneg' a hc
  have hmb : b.fmod c < c := Int.fmod_lt_of_pos b hc
  have h2 : c * (b.fdiv c + 1) ≤ c * a.fdiv c :=
    mul_le_mul_of_nonneg_left (by exact_mod_cast h1) hc.le
  rw [mul_add, mul_one] at h2
  linarith

lemma resampleMean_cons (p : ℤ × Option ℚ) (rest : List (ℤ × Option ℚ)) :
    resampleMean (p :: rest)
      = (List.range ((minuteFloor ((rest.map Prod.fst).foldr max p.1)
            - minuteFloor ((rest.map Prod.fst).foldr min p.1)) + 1).toNat).map
          (fun (i : ℕ) =>
            ((minuteFloor ((rest.map Prod.fst).foldr min p.1) + (i : ℤ)) * usPerMin,
              binValue (p :: rest)
                (minuteFloor ((rest.map Prod.fst).foldr min p.1) + (i : ℤ)))) := rfl

lemma filterMap_filter_isSome {α β : Type} (f : α → Option β) (l : List α) :
    (l.filter (fun x => (f x).isSome)).filterMap f = l.filterMap f := by
  induction l with
  | nil => rfl
  | cons x xs ih =>
    cases hfx : f x with
    | none => simp [List.filter_cons, hfx, List.filterMap_cons, ih]
    | some b => simp [List.filter_cons, hfx, List.filterMap_cons, ih]

/-- C7: a record whose timestamp text fails its source's fixed format is
dropped before resampling and contributes to no bin (filtering the
unparseable rows away first changes nothing), a failed parse is never
replaced by a default instant, and the remaining records are still
processed — for both the waveform and the scalar pipeline. -/
theorem c7_unparseable_dropped :
    ∀ (ecgRows : List EcgRaw) (cgmRows : List CgmRaw),
      processEcgData (ecgRows.filter (fun r => (parseEcgTime r.time).isSome))
          = processEcgData ecgRows
        ∧ processCgmData
            (cgmRows.filter (fun r => (parseCgmTime r.date r.time).isSome))
          = processCgmData cgmRows := by
  intro ecgRows cgmRows
  constructor
  · unfold processEcgData normalizeEcg
    have hq : ecgRows.filter (fun r => (parseEcgTime r.time).isSome)
        = ecgRows.filter
            (fun r => ((parseEcgTime r.time).map (fun t => (t, r.value))).isSome) :=
      List.filter_congr (fun r _ => by cases parseEcgTime r.time <;> simp)
    rw [hq, filterMap_filter_isSome]
  · unfold processCgmData normalizeCgm
    have hq : cgmRows.filter (fun r => (parseCgmTime r.date r.time).isSome)
        = cgmRows.filter
            (fun r => ((parseCgmTime r.date r.time).map (fun t => (t, r))).isSome) :=
      List.filter_congr (fun r _ => by cases parseCgmTime r.date r.time <;> simp)
    rw [hq, filterMap_filter_isSome]

/-- C10: waveform input column names are purely positional — the header
row is overwritten on read, so two waveform files with the same data rows
and different headers produce identical resampled outputs. -/
theorem c10_header_ignored :
    ∀ (h1 h2 : List String) (rows : List EcgRaw),
      processEcgFile ⟨h1, rows⟩ = processEcgFile ⟨h2, rows⟩ := by
  intro h1 h2 rows
  rfl

/-- C9: the merger does not deduplicate timestamps across waveform files —
with two waveform inputs each holding a value at instant 0 and the scalar
series also at instant 0, the inner-join output has two distinct rows
with timestamp 0, one per waveform series. -/
theorem c9_duplicate_timestamps_kept :
    mergeResampledData (some [⟨0, some 100⟩])
        [some [⟨0, some (1/2)⟩], some [⟨0, some (7/10)⟩]]
      = some ⟨mergedHeader,
          [⟨0, some 100, some (1/2)⟩, ⟨0, some 100, some (7/10)⟩]⟩ := by
  norm_num [mergeResampledData, readEcgFiles, prepEcg, innerJoin,
    List.insertionSort, List.orderedInsert, roundRow, round2, roundHalfEven,
    List.filterMap, List.flatMap, mergedHeader, Int.floor_ofNat]

/-- C1 is false on the code: on the spec's own end-to-end waveform
example, `process_ecg_data` resamples the empty minute `00:01` — which
has non-missing neighbours `0.55` and `0.30` — to a missing value
(`NaN`), not to the interpolated `0.425`; no interpolation step exists on
the waveform path. -/
theorem c1_counterexample :
    processEcgData exC1Rows
      = [(1412121600000000, some (11/20)), (1412121660000000, none),
         (1412121720000000, some (3/10))]
      ∧ (1412121660000000, some ((11/20 + 3/10 : ℚ)/2)) ∉ processEcgData exC1Rows := by
  have h1 : parseEcgTime "01/10/2014 00:00:00.0" = some 1412121600000000 := by decide
  have h2 : parseEcgTime "01/10/2014 00:00:15.0" = some 1412121615000000 := by decide
  have h3 : parseEcgTime "01/10/2014 00:00:30.0" = some 1412121630000000 := by decide
  have h4 : parseEcgTime "01/10/2014 00:00:45.0" = some 1412121645000000 := by decide
  have h5 : parseEcgTime "01/10/2014 00:02:00.0" = some 1412121720000000 := by decide
  have h6 : parseEcgTime "01/10/2014 00:02:30.0" = some 1412121750000000 := by decide
  have hnorm : normalizeEcg exC1Rows
      = [(1412121600000000, some (2/5)), (1412121615000000, some (1/2)),
         (1412121630000000, some (3/5)), (1412121645000000, some (7/10)),
         (1412121720000000, some (1/4)), (1412121750000000, some (7/20))] := by
    simp [normalizeEcg, exC1Rows, h1, h2, h3, h4, h5, h6]
  have hf1 : minuteFloor 1412121600000000 = 23535360 := by decide
  have hf2 : minuteFloor 1412121615000000 = 23535360 := by decide
  have hf3 : minuteFloor 1412121630000000 = 23535360 := by decide
  have hf4 : minuteFloor 1412121645000000 = 23535360 := by decide
  have hf5 : minuteFloor 1412121720000000 = 23535362 := by decide
  have hf6 : minuteFloor 1412121750000000 = 23535362 := by decide
  have hr : List.range 3 = [0, 1, 2] := by decide
  have hmain : processEcgData exC1Rows
      = [(1412121600000000, some (11/20)), (1412121660000000, none),
         (1412121720000000, some (3/10))] := by
    have ht : (3 : ℤ).toNat = 3 := rfl
    rw [processEcgData, hnorm]
    rw [resampleMean_cons]
    norm_num [binValue, hf1, hf2, hf3, hf4, hf5, hf6, hr, ht,
      min_def, max_def, usPerMin, List.filterMap_cons, List.filterMap_nil]
    exact ⟨fun hcon _ _ _ => absurd hcon (Option.some_ne_none _),
      fun hcon _ => absurd hcon (Option.some_ne_none _)⟩
  refine ⟨hmain, ?_⟩
  rw [hmain]
  norm_num
  exact fun hcon => Option.noConfusion hcon

/-- C1 amended: in the resampled waveform output of `process_ecg_data`, a
grid bin containing no source sample receives a missing value, whatever
its neighbours hold — the waveform path applies no interpolation (missing
waveform rows are instead dropped later, at merge time). -/
theorem c1_empty_bin_stays_missing :
    ∀ (rows : List EcgRaw) (m : ℤ),
      (∃ q ∈ normalizeEcg rows, minuteFloor q.1 ≤ m) →
      (∃ q ∈ normalizeEcg rows, m ≤ minuteFloor q.1) →
      (∀ q ∈ normalizeEcg rows, minuteFloor q.1 ≠ m) →
      (m * usPerMin, (none : Option ℚ)) ∈ processEcgData rows := by
  intro rows m hex1 hex2 hne
  obtain ⟨qlo, hqlo, hlo⟩ := hex1
  obtain ⟨qhi, hqhi, hhi⟩ := hex2
  unfold processEcgData
  cases hs : normalizeEcg rows with
  | nil => rw [hs] at hqlo; cases hqlo
  | cons p rest =>
    rw [hs] at hqlo hqhi hne
    rw [resampleMean_cons]
    have hU : (0 : ℤ) < usPerMin := by norm_num [usPerMin]
    have hmin_le : (rest.map Prod.fst).foldr min p.1 ≤ qlo.1 := by
      rcases List.mem_cons.mp hqlo with h' | h'
      · rw [h']; exact foldr_min_le_init _ _
      · exact foldr_min_le_of_mem _ (List.mem_map_of_mem Prod.fst h')
    have hle_max : qhi.1 ≤ (rest.map Prod.fst).foldr max p.1 := by
      rcases List.mem_cons.mp hqhi with h' | h'
      · rw [h']; exact le_foldr_max_init _ _
      · exact le_foldr_max_of_mem _ (List.mem_map_of_mem Prod.fst h')
    have hlo_le : minuteFloor ((rest.map Prod.fst).foldr min p.1) ≤ m :=
      le_trans (fdiv_mono hU hmin_le) hlo
    have hle_hi : m ≤ minuteFloor ((rest.map Prod.fst).foldr max p.1) :=
      le_trans hhi (fdiv_mono hU hle_max)
    set lo := minuteFloor ((rest.map Prod.fst).foldr min p.1) with hlo_def
    set hi := minuteFloor ((rest.map Prod.fst).foldr max p.1) with hhi_def
    have hbin : binValue (p :: rest) m = none := by
      unfold binValue
      have hfilter : (p :: rest).filter (fun q => minuteFloor q.1 == m) = [] := by
        rw [List.filter_eq_nil_iff]
        intro q hq
        simpa using hne q hq
      rw [hfilter]
      rfl
    have hlt : (m - lo).toNat < (hi - lo + 1).toNat := by omega
    refine List.mem_map.mpr ⟨(m - lo).toNat, List.mem_range.mpr hlt, ?_⟩
    have hcast : lo + ((m - lo).toNat : ℤ) = m := by omega
    rw [hcast, hbin]

/-- Witness for C1 amended at the example input: minute `00:01` of the
spec's example holds no sample, and the resampled output carries a
missing value at its grid point. -/
theorem c1_witness :
    ((23535361 : ℤ) * usPerMin, (none : Option ℚ)) ∈ processEcgData exC1Rows :=
  c1_empty_bin_stays_missing exC1Rows 23535361 (by decide) (by decide) (by decide)

/-- C5 is false on the code: for a single sample at second 30, the
resampled output's timestamps stop at the floor of the maximum timestamp
(minute 0), while the claimed grid runs to the ceiling of the maximum
(minute 1) inclusive. -/
theorem c5_counterexample :
    (resampleMean [(30000000, some 1)]).map Prod.fst = [0]
      ∧ specClaimedGrid [(30000000, some 1)] = [0, 60000000]
      ∧ (resampleMean [(30000000, some 1)]).map Prod.fst
          ≠ specClaimedGrid [(30000000, some 1)] := by
  refine ⟨by decide, by decide, by decide⟩

/-- C5 amended: for every non-empty normalized series, the timestamps of
the resampled output are exactly the consecutive 1-minute grid points
from the floor of the series' minimum timestamp to the floor of its
maximum, inclusive (equivalently: the bin boundaries end at the ceiling
of the maximum, but the last row label is the floor); the span depends
only on the data. -/
theorem c5_grid_floor_to_floor :
    ∀ (p : ℤ × Option ℚ) (rest : List (ℤ × Option ℚ)),
      (resampleMean (p :: rest)).map Prod.fst
        = (List.range ((minuteFloor ((rest.map Prod.fst).foldr max p.1)
              - minuteFloor ((rest.map Prod.fst).foldr min p.1)) + 1).toNat).map
            (fun (i : ℕ) =>
              (minuteFloor ((rest.map Prod.fst).foldr min p.1) + (i : ℤ)) * usPerMin) := by
  intro p rest
  rw [resampleMean_cons, List.map_map]
  rfl

lemma findLastSome_append_some (xs : List (Option ℚ)) (a : ℚ) :
    findLastSome (xs ++ [some a]) = some (xs.length, a) := by
  induction xs with
  | nil => rfl
  | cons x xs ih => simp [findLastSome, ih]

lemma findLastSome_replicate_none (k : ℕ) :
    findLastSome (List.replicate k none) = none := by
  induction k with
  | zero => rfl
  | succ k ih => simp [List.replicate_succ, findLastSome, ih]

lemma interp_getD (l : List (Option ℚ)) (i : ℕ) (h : i < l.length) :
    (interp l).getD i none = interpAt l i := by
  unfold interp
  rw [List.getD_eq_getElem _ _ (by simpa using h)]
  rw [List.getElem_map, List.getElem_range]

/-- C6 amended: a lone interior gap whose neighbouring bins hold `a` and
`b` is filled with `(a+b)/2`, and gaps at the very start of the grid
remain missing; but (per the counterexample) gaps at the very end do not
remain missing — they are filled by carrying the last non-missing value
forward. -/
theorem c6_interior_midpoint_leading_unfilled :
    ∀ (xs ys l : List (Option ℚ)) (a b : ℚ) (k : ℕ),
      (interp (xs ++ some a :: none :: some b :: ys)).getD (xs.length + 1) none
          = some ((a + b) / 2)
        ∧ (interp (List.replicate k none ++ l)).take k
            = List.replicate k none := by
  intro xs ys l a b k
  constructor
  · have hlen : xs.length + 1 < (xs ++ some a :: none :: some b :: ys).length := by
      simp
    rw [interp_getD _ _ hlen]
    unfold interpAt
    have hmid : (xs ++ some a :: none :: some b :: ys).getD (xs.length + 1) none
        = none := by
      rw [List.getD_eq_getElem _ _ hlen]
      rw [List.getElem_append_right (by omega)]
      simp
    have htake : (xs ++ some a :: none :: some b :: ys).take (xs.length + 1)
        = xs ++ [some a] := by
      rw [List.take_append_eq_append_take]
      rw [List.take_of_length_le (by omega)]
      congr 1
      simp
    have hdrop : (xs ++ some a :: none :: some b :: ys).drop (xs.length + 1 + 1)
        = some b :: ys := by
      rw [List.drop_append_eq_append_drop]
      rw [List.drop_of_length_le (by omega)]
      have h4 : xs.length + 1 + 1 - xs.length = 2 := by omega
      rw [List.nil_append, h4]
      rfl
    rw [hmid, htake, hdrop, findLastSome_append_some]
    show some _ = _
    have h1 : ((xs.length + 1 - xs.length : ℕ) : ℚ) = 1 := by
      norm_num
    have h2 : ((xs.length + 1 + 1 + 0 - xs.length : ℕ) : ℚ) = 2 := by
      have : xs.length + 1 + 1 + 0 - xs.length = 2 := by omega
      rw [this]
      norm_num
    simp only [findFirstSome, h1, h2]
    congr 1
    ring
  · have hlen : (interp (List.replicate k none ++ l)).length
        = k + l.length := by
      simp [interp]
    rw [List.eq_replicate_iff]
    refine ⟨by simp [hlen], ?_⟩
    intro x hx
    obtain ⟨i, hi, rfl⟩ := List.mem_iff_getElem.mp hx
    have hik : i < k := by
      have := List.length_take_le k (interp (List.replicate k none ++ l))
      have h2 := hi
      rw [List.length_take] at h2
      omega
    rw [List.getElem_take]
    have hilen : i < (List.replicate k none ++ l).length := by simp; omega
    have : (interp (List.replicate k none ++ l)).getD i none
        = interpAt (List.replicate k none ++ l) i := interp_getD _ _ hilen
    rw [List.getD_eq_getElem _ _ (by simpa [interp] using hilen)] at this
    rw [this]
    unfold interpAt
    have hgd : (List.replicate k none ++ l).getD i none = none := by
      rw [List.getD_eq_getElem _ _ hilen]
      rw [List.getElem_append_left (by simpa using hik)]
      simp
    have htk : (List.replicate k none ++ l).take i = List.replicate i none := by
      rw [List.take_append_eq_append_take]
      have h3 : i - (List.replicate (α := Option ℚ) k none).length = 0 := by
        simp
        omega
      rw [h3]
      simp [List.take_replicate]
      omega
    rw [hgd, htk, findLastSome_replicate_none]

/-- C6 is partly false on the code: a gap at the very end of the grid
does not remain missing.  For a scalar input whose last bin aggregates to
missing, `interpolate(method='linear')` (default forward direction)
fills the trailing bin by carrying the last known value forward: the
processed series ends `[…, some 1, some 1]`, not `[…, some 1, none]`. -/
theorem c6_counterexample :
    processCgmData exC6Rows
      = [(1412121600000000, some 1), (1412121660000000, some 1)] := by
  have hp1 : parseCgmTime "2014-10-01" "00:00:00" = some 1412121600000000 := by
    decide
  have hp2 : parseCgmTime "2014-10-01" "00:01:30" = some 1412121690000000 := by
    decide
  have hf1 : minuteFloor 1412121600000000 = 23535360 := by decide
  have hf2 : minuteFloor 1412121690000000 = 23535361 := by decide
  have ht : (2 : ℤ).toNat = 2 := rfl
  have hr : List.range 2 = [0, 1] := by decide
  unfold processCgmData
  have hnorm : normalizeCgm exC6Rows
      = [(1412121600000000, ⟨"2014-10-01", "00:00:00", "cgm", some 1⟩),
         (1412121690000000, ⟨"2014-10-01", "00:01:30", "cgm", none⟩)] := by
    simp [normalizeCgm, exC6Rows, hp1, hp2]
  rw [hnorm]
  norm_num [resampleMean_cons, binValue, hf1, hf2, ht, hr, min_def, max_def,
    usPerMin, List.filterMap_cons, List.filterMap_nil, interp, interpAt,
    findFirstSome, findLastSome]
  simp

lemma foldr_min_range_shifted (g : ℕ → ℤ) (hg : Monotone g) (n : ℕ) :
    ((List.range n).map (fun i => g (i + 1))).foldr min (g 0) = g 0 :=
  foldr_min_eq_init (fun x hx => by
    obtain ⟨i, _, rfl⟩ := List.mem_map.mp hx
    exact hg (Nat.zero_le _))

lemma foldr_max_range_shifted (g : ℕ → ℤ) (hg : Monotone g) (n : ℕ) :
    ((List.range n).map (fun i => g (i + 1))).foldr max (g 0) = g n := by
  cases n with
  | zero => rfl
  | succ n =>
    rw [List.range_succ, List.map_append, List.foldr_append]
    simp only [List.map_cons, List.map_nil, List.foldr_cons, List.foldr_nil]
    rw [max_eq_left (hg (Nat.zero_le _))]
    exact foldr_max_eq_init (fun x hx => by
      obtain ⟨i, hi, rfl⟩ := List.mem_map.mp hx
      have hilt : i < n := List.mem_range.mp hi
      exact hg (by omega))

lemma range_filter_beq (n i : ℕ) (h : i < n) :
    (List.range n).filter (fun j => j == i) = [i] := by
  induction n with
  | zero => omega
  | succ n ih =>
    rw [List.range_succ, List.filter_append]
    by_cases hin : i < n
    · rw [ih hin]
      have hni : (List.filter (fun j => j == i) [n]) = [] := by
        simp
        omega
      rw [hni, List.append_nil]
    · have hi_eq : i = n := by omega
      subst hi_eq
      have h1 : (List.range i).filter (fun j => j == i) = [] := by
        rw [List.filter_eq_nil_iff]
        intro a ha
        have := List.mem_range.mp ha
        simp
        omega
      rw [h1]
      simp

/-- C8: resampling is idempotent on an already grid-aligned, gap-free
series — a series whose instants are exactly the consecutive 1-minute
grid points `m0, m0+1, …, m0+n` with one (present) value per point is
returned unchanged by the 1-minute mean-resampling step. -/
theorem c8_resample_idempotent :
    ∀ (m0 : ℤ) (n : ℕ) (v : ℕ → ℚ),
      resampleMean ((List.range (n + 1)).map
          (fun (i : ℕ) => ((m0 + (i : ℤ)) * usPerMin, some (v i))))
        = (List.range (n + 1)).map
            (fun (i : ℕ) => ((m0 + (i : ℤ)) * usPerMin, some (v i))) := by
  intro m0 n v
  have hU : (0 : ℤ) < usPerMin := by norm_num [usPerMin]
  have hgmono : Monotone (fun (i : ℕ) => (m0 + (i : ℤ)) * usPerMin) := by
    intro x y hxy
    have hc : (x : ℤ) ≤ (y : ℤ) := by exact_mod_cast hxy
    exact mul_le_mul_of_nonneg_right (by omega) hU.le
  have hfl : ∀ (k : ℕ), minuteFloor ((m0 + (k : ℤ)) * usPerMin) = m0 + k :=
    fun k => Int.mul_fdiv_cancel _ (by norm_num [usPerMin])
  have hsplit : (List.range (n + 1)).map
      (fun (i : ℕ) => ((m0 + (i : ℤ)) * usPerMin, some (v i)))
      = ((m0 + ((0 : ℕ) : ℤ)) * usPerMin, some (v 0))
        :: (List.range n).map
            (fun (i : ℕ) => ((m0 + ((i + 1 : ℕ) : ℤ)) * usPerMin, some (v (i + 1)))) := by
    rw [List.range_succ_eq_map, List.map_cons, List.map_map]
    rfl
  rw [hsplit, resampleMean_cons]
  have hfst : ((List.range n).map
      (fun (i : ℕ) => ((m0 + ((i + 1 : ℕ) : ℤ)) * usPerMin, some (v (i + 1))))).map Prod.fst
      = (List.range n).map (fun (i : ℕ) => (m0 + ((i + 1 : ℕ) : ℤ)) * usPerMin) := by
    rw [List.map_map]
    rfl
  rw [hfst]
  have hmin : ((List.range n).map
      (fun (i : ℕ) => (m0 + ((i + 1 : ℕ) : ℤ)) * usPerMin)).foldr min
        ((m0 + ((0 : ℕ) : ℤ)) * usPerMin, some (v 0)).1
      = (m0 + ((0 : ℕ) : ℤ)) * usPerMin :=
    foldr_min_range_shifted (fun (i : ℕ) => (m0 + (i : ℤ)) * usPerMin) hgmono n
  have hmax : ((List.range n).map
      (fun (i : ℕ) => (m0 + ((i + 1 : ℕ) : ℤ)) * usPerMin)).foldr max
        ((m0 + ((0 : ℕ) : ℤ)) * usPerMin, some (v 0)).1
      = (m0 + (n : ℤ)) * usPerMin :=
    foldr_max_range_shifted (fun (i : ℕ) => (m0 + (i : ℤ)) * usPerMin) hgmono n
  rw [hmin, hmax, hfl, hfl]
  have htn : ((m0 + (n : ℤ)) - (m0 + ((0 : ℕ) : ℤ)) + 1).toNat = n + 1 := by
    omega
  rw [htn]
  rw [← hsplit]
  apply List.map_congr_left
  intro i hi
  have hin : i < n + 1 := List.mem_range.mp hi
  have hlo0 : m0 + ((0 : ℕ) : ℤ) + (i : ℤ) = m0 + (i : ℤ) := by
    omega
  rw [hlo0]
  have hbin : binValue ((List.range (n + 1)).map
      (fun (i : ℕ) => ((m0 + (i : ℤ)) * usPerMin, some (v i)))) (m0 + (i : ℤ))
      = some (v i) := by
    unfold binValue
    rw [List.filter_map]
    have hpred : ∀ j ∈ List.range (n + 1),
        ((fun q => minuteFloor q.1 == m0 + (i : ℤ))
          ∘ (fun (i : ℕ) => ((m0 + (i : ℤ)) * usPerMin, some (v i)))) j
          = (j == i) := by
      intro j _
      simp only [Function.comp]
      rw [hfl j]
      by_cases hji : j = i
      · subst hji
        simp
      · have hne2 : ¬(m0 + (j : ℤ) = m0 + (i : ℤ)) := by omega
        simp [hji, hne2]
    rw [List.filter_congr hpred, range_filter_beq _ _ hin]
    simp
  rw [hbin]

/-- C2 is false on the code for two of its three cases: with an empty
scalar table, and likewise with no readable non-empty waveform table,
`merge_resampled_data` returns at line 104 / line 118 without writing any
artifact at all. -/
theorem c2_counterexample :
    mergeResampledData (some ([] : List CgmRow)) [some [⟨0, some 1⟩]] = none
      ∧ mergeResampledData (some [⟨0, some 100⟩])
          ([] : List (Option (List EcgRow))) = none := by
  exact ⟨rfl, rfl⟩

/-- C2 amended: only the zero-overlap case emits the header-only
artifact — when the scalar table and the readable waveform tables are
non-empty but the inner join matches no timestamps, the written file is
exactly the header `Timestamp,Glucose,EcgWaveform` with zero data rows;
the empty-scalar and no-waveform cases instead return without writing. -/
theorem c2_zero_overlap_writes_empty :
    ∀ (cgmRows : List CgmRow) (ecgFiles : List (Option (List EcgRow))),
      cgmRows ≠ [] →
      readEcgFiles ecgFiles ≠ [] →
      innerJoin cgmRows (prepEcg (readEcgFiles ecgFiles)) = [] →
      mergeResampledData (some cgmRows) ecgFiles = some ⟨mergedHeader, []⟩ := by
  intro cgmRows ecgFiles h1 h2 h3
  simp only [mergeResampledData, List.isEmpty_iff, h3]
  rw [if_neg h1, if_neg h2]
  simp

/-- Witness for C2 amended: a scalar row at instant 0 and a waveform row
at instant 60000000 share no timestamp, and the merger still writes the
empty, correctly-headered artifact. -/
theorem c2_witness :
    mergeResampledData (some [⟨0, some 100⟩]) [some [⟨60000000, some 1⟩]]
      = some ⟨mergedHeader, []⟩ :=
  c2_zero_overlap_writes_empty [⟨0, some 100⟩] [some [⟨60000000, some 1⟩]]
    (by decide) (by decide) (by decide)

lemma isSome_map_round (o : Option ℚ) : (o.map round2).isSome = o.isSome := by
  cases o <;> rfl

lemma foldr_min_attained (a : ℤ) (l : List ℤ) :
    l.foldr min a = a ∨ l.foldr min a ∈ l := by
  induction l with
  | nil => left; rfl
  | cons x xs ih =>
    simp only [List.foldr_cons]
    rcases le_total x (xs.foldr min a) with h | h
    · right
      rw [min_eq_left h]
      exact List.mem_cons_self _ _
    · rw [min_eq_right h]
      rcases ih with h' | h'
      · left; exact h'
      · right; exact List.mem_cons_of_mem _ h'

lemma findLastSome_cons_some (v : ℚ) (xs : List (Option ℚ)) :
    (findLastSome (some v :: xs)).isSome := by
  unfold findLastSome
  cases hfl : findLastSome xs <;> simp [hfl]

lemma interpAt_isSome {l : List (Option ℚ)} {v : ℚ} {l' : List (Option ℚ)}
    (hl : l = some v :: l') (i : ℕ) (hi : i < l.length) :
    (interpAt l i).isSome := by
  unfold interpAt
  cases hgd : l.getD i none
  · have hi0 : i ≠ 0 := by
      intro h0
      subst h0
      rw [hl] at hgd
      simp at hgd
    obtain ⟨n, rfl⟩ : ∃ n, i = n + 1 := ⟨i - 1, by omega⟩
    have htake : l.take (n + 1) = some v :: l'.take n := by
      rw [hl, List.take_succ_cons]
    simp only [hgd, htake]
    obtain ⟨jp, hjp⟩ :=
      Option.isSome_iff_exists.mp (findLastSome_cons_some v (l'.take n))
    rw [hjp]
    cases hff : findFirstSome (l.drop (n + 1 + 1)) <;> simp
  · simp [hgd]

/-- Supporting fact for C3: when every raw glucose cell is present, the
processed scalar series of `process_cgm_data` carries a present value at
every grid point — the interpolation step leaves no missing value because
the first bin always aggregates to a present value and linear
interpolation (with forward padding) fills everything after it. -/
lemma processCgmData_values_isSome (rows : List CgmRaw)
    (hg : ∀ r ∈ rows, r.glucose.isSome) :
    ∀ p ∈ processCgmData rows, p.2.isSome := by
  intro p hp
  have hp' : p ∈ ((resampleMean (((normalizeCgm rows).filter
        (fun q => q.2.type == "cgm")).map (fun q => (q.1, q.2.glucose)))).map
          Prod.fst).zip
      (interp ((resampleMean (((normalizeCgm rows).filter
        (fun q => q.2.type == "cgm")).map (fun q => (q.1, q.2.glucose)))).map
          Prod.snd)) := hp
  set S := ((normalizeCgm rows).filter (fun q => q.2.type == "cgm")).map
      (fun q => (q.1, q.2.glucose)) with hS
  have hs_val : ∀ q ∈ S, q.2.isSome := by
    intro q hq
    rw [hS] at hq
    obtain ⟨q', hq', rfl⟩ := List.mem_map.mp hq
    have hq'' : q' ∈ normalizeCgm rows := (List.mem_filter.mp hq').1
    obtain ⟨r, hr, heq⟩ := List.mem_filterMap.mp hq''
    obtain ⟨t, _, heq2⟩ := Option.map_eq_some'.mp heq
    rw [← heq2]
    exact hg r hr
  have hmem2 := (List.of_mem_zip hp').2
  cases hs : S with
  | nil =>
    rw [hs] at hmem2
    simp [resampleMean, interp] at hmem2
  | cons q0 rest =>
    rw [hs] at hmem2
    obtain ⟨qm, hqm_mem, hqm_fst⟩ :
        ∃ qm ∈ q0 :: rest, qm.1 = (rest.map Prod.fst).foldr min q0.1 := by
      rcases foldr_min_attained q0.1 (rest.map Prod.fst) with h | h
      · exact ⟨q0, List.mem_cons_self _ _, h.symm⟩
      · obtain ⟨qm, hqm, hfst⟩ := List.mem_map.mp h
        exact ⟨qm, List.mem_cons_of_mem _ hqm, hfst⟩
    have hbin0 : (binValue (q0 :: rest)
        (minuteFloor ((rest.map Prod.fst).foldr min q0.1))).isSome := by
      unfold binValue
      obtain ⟨w, hw⟩ := Option.isSome_iff_exists.mp
        (hs_val qm (hs ▸ hqm_mem))
      have hqm_filter : qm ∈ (q0 :: rest).filter
          (fun q => minuteFloor q.1
            == minuteFloor ((rest.map Prod.fst).foldr min q0.1)) := by
        rw [List.mem_filter]
        refine ⟨hqm_mem, ?_⟩
        rw [hqm_fst]
        simp
      have hvs : w ∈ ((q0 :: rest).filter
          (fun q => minuteFloor q.1
            == minuteFloor ((rest.map Prod.fst).foldr min q0.1))).filterMap
            Prod.snd :=
        List.mem_filterMap.mpr ⟨qm, hqm_filter, hw⟩
      have hne : ¬((((q0 :: rest).filter
          (fun q => minuteFloor q.1
            == minuteFloor ((rest.map Prod.fst).foldr min q0.1))).filterMap
            Prod.snd).isEmpty = true) := by
        intro hemp
        rw [List.isEmpty_iff] at hemp
        rw [hemp] at hvs
        cases hvs
      rw [if_neg hne]
      rfl
    obtain ⟨v0, hv0⟩ := Option.isSome_iff_exists.mp hbin0
    have hU : (0 : ℤ) < usPerMin := by norm_num [usPerMin]
    have hlohi : minuteFloor ((rest.map Prod.fst).foldr min q0.1)
        ≤ minuteFloor ((rest.map Prod.fst).foldr max q0.1) :=
      fdiv_mono hU (le_trans (foldr_min_le_init _ _) (le_foldr_max_init _ _))
    obtain ⟨n', hN⟩ : ∃ n',
        ((minuteFloor ((rest.map Prod.fst).foldr max q0.1)
          - minuteFloor ((rest.map Prod.fst).foldr min q0.1)) + 1).toNat
        = n' + 1 := by
      refine ⟨((minuteFloor ((rest.map Prod.fst).foldr max q0.1)
        - minuteFloor ((rest.map Prod.fst).foldr min q0.1)) + 1).toNat - 1, ?_⟩
      omega
    have hcol : (resampleMean (q0 :: rest)).map Prod.snd
        = some v0 :: ((List.range n').map
            (fun (i : ℕ) => binValue (q0 :: rest)
              (minuteFloor ((rest.map Prod.fst).foldr min q0.1)
                + ((i + 1 : ℕ) : ℤ)))) := by
      rw [resampleMean_cons, hN, List.range_succ_eq_map, List.map_cons,
        List.map_cons, List.map_map, List.map_map]
      congr 1
      · show binValue (q0 :: rest)
            (minuteFloor ((rest.map Prod.fst).foldr min q0.1) + ((0 : ℕ) : ℤ))
          = some v0
        rw [show (((0 : ℕ) : ℤ)) = 0 from rfl, add_zero]
        exact hv0
    rw [hcol] at hmem2
    rw [show interp (some v0 :: ((List.range n').map
        (fun (i : ℕ) => binValue (q0 :: rest)
          (minuteFloor ((rest.map Prod.fst).foldr min q0.1)
            + ((i + 1 : ℕ) : ℤ)))))
      = (List.range (some v0 :: ((List.range n').map
          (fun (i : ℕ) => binValue (q0 :: rest)
            (minuteFloor ((rest.map Prod.fst).foldr min q0.1)
              + ((i + 1 : ℕ) : ℤ))))).length).map
          (interpAt (some v0 :: ((List.range n').map
            (fun (i : ℕ) => binValue (q0 :: rest)
              (minuteFloor ((rest.map Prod.fst).foldr min q0.1)
                + ((i + 1 : ℕ) : ℤ)))))) from rfl] at hmem2
    obtain ⟨i, hi_mem, heq⟩ := List.mem_map.mp hmem2
    rw [← heq]
    exact interpAt_isSome rfl i (by simpa using List.mem_range.mp hi_mem)

/-- C3 is false on the code as an unconditional statement: a scalar
source whose first minute's only cgm row has an empty glucose cell
yields a leading missing bin, which line 67's forward interpolation
leaves missing (first conjunct, through `process_cgm_data` itself); the
merge never drops missing values from the scalar side (line 121's
`dropna` is on the waveform frame only), so a successfully written
merged table carries a data row whose Glucose is missing (second and
third conjuncts). -/
theorem c3_counterexample :
    processCgmData
        [⟨"2014-10-01", "00:00:00", "cgm", none⟩,
         ⟨"2014-10-01", "00:01:30", "cgm", some 120⟩]
      = [(1412121600000000, none), (1412121660000000, some 120)]
      ∧ mergeResampledData
          (some [⟨1412121600000000, none⟩, ⟨1412121660000000, some 120⟩])
          [some [⟨1412121600000000, some (1/2)⟩]]
        = some ⟨mergedHeader, [⟨1412121600000000, none, some (1/2)⟩]⟩
      ∧ ((⟨1412121600000000, none, some (1/2)⟩ : MergedRow).glucose.isSome
          = false) := by
  refine ⟨?_, ?_, rfl⟩
  · have hp1 : parseCgmTime "2014-10-01" "00:00:00" = some 1412121600000000 := by
      decide
    have hp2 : parseCgmTime "2014-10-01" "00:01:30" = some 1412121690000000 := by
      decide
    have hf1 : minuteFloor 1412121600000000 = 23535360 := by decide
    have hf2 : minuteFloor 1412121690000000 = 23535361 := by decide
    have ht : (2 : ℤ).toNat = 2 := rfl
    have hr : List.range 2 = [0, 1] := by decide
    unfold processCgmData
    have hnorm : normalizeCgm
        [⟨"2014-10-01", "00:00:00", "cgm", none⟩,
         ⟨"2014-10-01", "00:01:30", "cgm", some 120⟩]
        = [(1412121600000000, ⟨"2014-10-01", "00:00:00", "cgm", none⟩),
           (1412121690000000, ⟨"2014-10-01", "00:01:30", "cgm", some 120⟩)] := by
      simp [normalizeCgm, hp1, hp2]
    rw [hnorm]
    norm_num [resampleMean_cons, binValue, hf1, hf2, ht, hr, min_def, max_def,
      usPerMin, List.filterMap_cons, List.filterMap_nil, interp, interpAt,
      findFirstSome, findLastSome]
    simp
  · norm_num [mergeResampledData, readEcgFiles, prepEcg, innerJoin,
      List.insertionSort, List.orderedInsert, roundRow, round2, roundHalfEven,
      List.filterMap, List.flatMap, mergedHeader, Int.floor_ofNat]

/-- C3 amended: in every successfully written merged table, the
EcgWaveform value of every data row is present (line 121 drops missing
waveform rows before the join); and whenever every row of the scalar
resampled series carries a present Glucose value, every data row's
Glucose is present as well — without that proviso a leading scalar gap
can flow into the merged file. -/
theorem c3_merged_values_nonmissing :
    ∀ (cgmRows : List CgmRow) (ecgFiles : List (Option (List EcgRow)))
      (out : MergedCsv),
      mergeResampledData (some cgmRows) ecgFiles = some out →
      (∀ row ∈ out.rows, row.ecg.isSome)
        ∧ ((∀ r ∈ cgmRows, r.glucose.isSome) →
            ∀ row ∈ out.rows, row.glucose.isSome) := by
  intro cgmRows ecgFiles out hmerge
  simp only [mergeResampledData] at hmerge
  by_cases h1 : cgmRows.isEmpty
  · rw [if_pos h1] at hmerge
    cases hmerge
  · rw [if_neg h1] at hmerge
    by_cases h2 : (readEcgFiles ecgFiles).isEmpty
    · rw [if_pos h2] at hmerge
      cases hmerge
    · rw [if_neg h2] at hmerge
      by_cases h3 : (innerJoin cgmRows (prepEcg (readEcgFiles ecgFiles))).isEmpty
      · rw [if_pos h3] at hmerge
        injection hmerge with h
        subst h
        exact ⟨fun row hrow => absurd hrow (List.not_mem_nil _),
          fun _ row hrow => absurd hrow (List.not_mem_nil _)⟩
      · rw [if_neg h3] at hmerge
        injection hmerge with h
        subst h
        constructor
        · intro row hrow
          obtain ⟨r0, hr0, rfl⟩ := List.mem_map.mp hrow
          obtain ⟨c, hc, hr0m⟩ := List.mem_flatMap.mp hr0
          obtain ⟨e, he, rfl⟩ := List.mem_map.mp hr0m
          have hein : e ∈ prepEcg (readEcgFiles ecgFiles) :=
            (List.mem_filter.mp he).1
          have hesome : e.ecg.isSome := by
            have := (List.mem_filter.mp hein).2
            simpa using this
          show ((⟨c.timestamp, c.glucose, e.ecg⟩ : MergedRow).ecg.map
            round2).isSome = true
          rw [isSome_map_round]
          exact hesome
        · intro hg row hrow
          obtain ⟨r0, hr0, rfl⟩ := List.mem_map.mp hrow
          obtain ⟨c, hc, hr0m⟩ := List.mem_flatMap.mp hr0
          obtain ⟨e, he, rfl⟩ := List.mem_map.mp hr0m
          show ((⟨c.timestamp, c.glucose, e.ecg⟩ : MergedRow).glucose.map
            round2).isSome = true
          rw [isSome_map_round]
          exact hg c hc

/-- Witness for C3 amended at a concrete merge: one scalar row and one
waveform row at instant 0 merge to a single row with both values
present. -/
theorem c3_witness :
    ((⟨0, some 100, some (1/2)⟩ : MergedRow).ecg.isSome
      ∧ (⟨0, some 100, some (1/2)⟩ : MergedRow).glucose.isSome) := by
  have h := c3_merged_values_nonmissing [⟨0, some 100⟩] [some [⟨0, some (1/2)⟩]]
    ⟨mergedHeader, [⟨0, some 100, some (1/2)⟩]⟩
    (by norm_num [mergeResampledData, readEcgFiles, prepEcg, innerJoin,
      List.insertionSort, List.orderedInsert, roundRow, round2, roundHalfEven,
      List.filterMap, List.flatMap, mergedHeader, Int.floor_ofNat])
  exact ⟨h.1 ⟨0, some 100, some (1/2)⟩ (by simp),
    h.2 (by decide) ⟨0, some 100, some (1/2)⟩ (by simp)⟩

lemma length_filter_add_length_filter_not {α : Type} (p : α → Bool) (l : List α) :
    (l.filter p).length + (l.filter (fun a => !(p a))).length = l.length := by
  induction l with
  | nil => rfl
  | cons x xs ih =>
    cases hpx : p x <;> simp [List.filter_cons, hpx] <;> omega

lemma innerJoin_filter_ne (rest : List CgmRow) (right : List EcgRow) (t : ℤ)
    (h : ∀ c ∈ rest, c.timestamp ≠ t) :
    innerJoin rest right
      = innerJoin rest (right.filter (fun e => !(e.timestamp == t))) := by
  induction rest with
  | nil => rfl
  | cons c rest ih =>
    have hct : c.timestamp ≠ t := h c (List.mem_cons_self _ _)
    have hfilter : right.filter (fun e => e.timestamp == c.timestamp)
        = (right.filter (fun e => !(e.timestamp == t))).filter
            (fun e => e.timestamp == c.timestamp) := by
      rw [List.filter_filter]
      apply List.filter_congr
      intro e _
      by_cases het : e.timestamp = c.timestamp
      · simp [het, hct]
      · simp [het]
    have hih := ih (fun c' hc' => h c' (List.mem_cons_of_mem _ hc'))
    simp only [innerJoin, List.flatMap_cons] at hih ⊢
    rw [hih, hfilter]

lemma innerJoin_length_le_right (left : List CgmRow) (right : List EcgRow)
    (h : (left.map (fun r => r.timestamp)).Nodup) :
    (innerJoin left right).length ≤ right.length := by
  induction left generalizing right with
  | nil => simp [innerJoin]
  | cons c rest ih =>
    rw [List.map_cons] at h
    obtain ⟨hnotin, hnd⟩ := List.nodup_cons.mp h
    have hne : ∀ c' ∈ rest, c'.timestamp ≠ c.timestamp := by
      intro c' hc' hcon
      exact hnotin (hcon ▸ List.mem_map_of_mem (fun r => r.timestamp) hc')
    have hjoin := innerJoin_filter_ne rest right c.timestamp hne
    have hrec := ih (right.filter (fun e => !(e.timestamp == c.timestamp))) hnd
    rw [← hjoin] at hrec
    have hsum := length_filter_add_length_filter_not
      (fun e : EcgRow => e.timestamp == c.timestamp) right
    simp only [innerJoin, List.flatMap_cons, List.length_append,
      List.length_map]
    simp only [innerJoin] at hrec
    omega

lemma flatten_filter_length_le {α : Type} (p : List α → Bool) (ls : List (List α)) :
    ((ls.filter p).flatten).length ≤ (ls.flatten).length := by
  induction ls with
  | nil => simp
  | cons x xs ih =>
    cases hpx : p x
    · simp only [List.filter_cons, hpx, Bool.false_eq_true, if_false,
        List.flatten_cons, List.length_append]
      omega
    · simp only [List.filter_cons, hpx, if_true, List.flatten_cons,
        List.length_append]
      omega

/-- C4 is false on the code: with one scalar row at instant 0 and two
waveform files each holding a row at instant 0, the inner merge has 2
rows, exceeding min(scalar-row-count, waveform-row-count) = min(1, 2) = 1
— pandas' inner merge multiplies duplicate keys. -/
theorem c4_counterexample :
    (mergeResampledData (some [⟨0, some 100⟩])
        [some [⟨0, some (1/2)⟩], some [⟨0, some (7/10)⟩]]).map
        (fun c => c.rows.length)
      = some 2
      ∧ ¬((2 : ℕ) ≤ min 1 2) := by
  exact ⟨by decide, by decide⟩

/-- C4 amended: the bound holds against the waveform side alone — when
the scalar series has pairwise-distinct timestamps (as a resampled
series does), the merged row count is at most the total number of
waveform rows handed to the merger; it can still exceed the scalar row
count (and hence the min) when the concatenated waveform files repeat a
timestamp. -/
theorem c4_rowcount_le_waveform :
    ∀ (cgmRows : List CgmRow) (ecgFiles : List (Option (List EcgRow)))
      (out : MergedCsv),
      (cgmRows.map (fun r => r.timestamp)).Nodup →
      mergeResampledData (some cgmRows) ecgFiles = some out →
      out.rows.length ≤ ((ecgFiles.filterMap id).flatten).length := by
  intro cgmRows ecgFiles out hnd hmerge
  simp only [mergeResampledData] at hmerge
  by_cases h1 : cgmRows.isEmpty
  · rw [if_pos h1] at hmerge; cases hmerge
  · rw [if_neg h1] at hmerge
    by_cases h2 : (readEcgFiles ecgFiles).isEmpty
    · rw [if_pos h2] at hmerge; cases hmerge
    · rw [if_neg h2] at hmerge
      have hprep : (prepEcg (readEcgFiles ecgFiles)).length
          ≤ ((ecgFiles.filterMap id).flatten).length := by
        unfold prepEcg
        calc (((readEcgFiles ecgFiles).flatten.insertionSort
                (fun a b => a.timestamp ≤ b.timestamp)).filter
                (fun e => e.ecg.isSome)).length
            ≤ ((readEcgFiles ecgFiles).flatten.insertionSort
                (fun a b => a.timestamp ≤ b.timestamp)).length :=
              List.length_filter_le _ _
          _ = ((readEcgFiles ecgFiles).flatten).length :=
              List.length_insertionSort _ _
          _ ≤ ((ecgFiles.filterMap id).flatten).length :=
              flatten_filter_length_le _ _
      by_cases h3 : (innerJoin cgmRows (prepEcg (readEcgFiles ecgFiles))).isEmpty
      · rw [if_pos h3] at hmerge
        injection hmerge with h
        subst h
        simp
      · rw [if_neg h3] at hmerge
        injection hmerge with h
        subst h
        show ((innerJoin cgmRows (prepEcg (readEcgFiles ecgFiles))).map
          roundRow).length ≤ _
        rw [List.length_map]
        exact le_trans
          (innerJoin_length_le_right cgmRows (prepEcg (readEcgFiles ecgFiles)) hnd)
          hprep

/-- Witness for C4 amended at a concrete merge: one scalar and one
waveform row at instant 0 merge to one row, within the one-row waveform
total. -/
theorem c4_witness :
    (MergedCsv.mk mergedHeader [⟨0, some 100, some (1/2)⟩]).rows.length
      ≤ ((([some [⟨0, some (1/2)⟩]] : List (Option (List EcgRow))).filterMap
          id).flatten).length :=
  c4_rowcount_le_waveform [⟨0, some 100⟩] [some [⟨0, some (1/2)⟩]]
    ⟨mergedHeader, [⟨0, some 100, some (1/2)⟩]⟩
    (by decide)
    (by norm_num [mergeResampledData, readEcgFiles, prepEcg, innerJoin,
      List.insertionSort, List.orderedInsert, roundRow, round2, roundHalfEven,
      List.filterMap, List.flatMap, mergedHeader, Int.floor_ofNat])

end CleanData
